import Mathlib

/-!
Verification of the medicines-api repository (CSV ingestion pipeline and
dynamic query engine) against its natural-language specification.

The definitions below are a shallow embedding of the TypeScript source:

* `src/db/index.ts` — header normalization (`cleanHeader`), the CSV-to-table
  mapping, row transformation/validation/insertion and the import
  coordinator (`importCSV` / `processAllRows` / `processRow`);
* `src/db/schema.ts` — the `medicines` table and the generated insert schema
  (every column nullable, id auto-assigned);
* `src/server.ts` — the dynamic where-clause builder (`buildWhereClause`),
  pagination (`getPaginatedData` and the page metadata computed by the
  GET /medicines handler), the distinct-values endpoint and the stats
  endpoint.

JavaScript strings are modelled as Lean `String` / `List Char`; the
JS-specific primitives (trim with the full JS whitespace set, regex
replaces, toLowerCase restricted to ASCII) are spelled out as explicit
`List Char` programs.  Bracket access on the object-literal dictionaries
(`fieldMapping[key]`) is modelled including the prototype chain: names of
inherited Object.prototype members are truthy and pass the truthiness
checks of the source.  The SQLite store is external to the repository;
where its behaviour is observable we model the documented defaults (LIKE
is case-insensitive for ASCII with live percent/underscore wildcards, =,
>=, <= and ORDER BY compare text by code point).
-/

namespace MedicinesApi

/-! ### JS string primitives used by `cleanHeader` (src/db/index.ts lines 90-96) -/

/-- Whitespace recognized by the JS `String.prototype.trim`: the WhiteSpace
and LineTerminator code points of the language specification — tab, line
feed, vertical tab, form feed, carriage return, space, no-break space,
ogham space mark, the en-quad..hair-space block, line separator, paragraph
separator, narrow no-break space, medium mathematical space, ideographic
space and the zero-width no-break space. -/
def isJsWs (c : Char) : Bool :=
  decide (c.toNat = 9 ∨ c.toNat = 10 ∨ c.toNat = 11 ∨ c.toNat = 12 ∨ c.toNat = 13 ∨
    c.toNat = 32 ∨ c.toNat = 160 ∨ c.toNat = 0x1680 ∨
    (0x2000 ≤ c.toNat ∧ c.toNat ≤ 0x200A) ∨ c.toNat = 0x2028 ∨ c.toNat = 0x2029 ∨
    c.toNat = 0x202F ∨ c.toNat = 0x205F ∨ c.toNat = 0x3000 ∨ c.toNat = 0xFEFF)

/-- JS `.trim()` on a list of characters: drop leading and trailing whitespace. -/
def jsTrim (l : List Char) : List Char :=
  ((l.dropWhile isJsWs).reverse.dropWhile isJsWs).reverse

/-- JS `.replace(/\n/g, " ")`: every newline becomes a single space. -/
def replaceNewlines (l : List Char) : List Char :=
  l.map fun c => if c = '\n' then ' ' else c

/-- Worker for `collapseSpaces`; the flag records whether we are inside a run
of spaces (so that a maximal run produces a single underscore). -/
def collapseSpacesAux : Bool → List Char → List Char
  | _, [] => []
  | inRun, c :: rest =>
    if c = ' ' then
      (if inRun then [] else ['_']) ++ collapseSpacesAux true rest
    else
      c :: collapseSpacesAux false rest

/-- JS `.replace(/ +/g, "_")`: each maximal run of spaces becomes one underscore. -/
def collapseSpaces (l : List Char) : List Char :=
  collapseSpacesAux false l

/-- Characters removed by `.replace(/[()\/]/g, "")`. -/
def isDroppedPunct (c : Char) : Bool :=
  c = '(' || c = ')' || c = '/'

/-- The character pipeline of `cleanHeader`. -/
def cleanHeaderChars (l : List Char) : List Char :=
  ((collapseSpaces (replaceNewlines (jsTrim l))).filter
      (fun c => !isDroppedPunct c)).map Char.toLower

/-- The header normalizer of src/db/index.ts lines 90-96: trim, newlines to
spaces, space runs to underscores, drop parentheses and slashes, lowercase
(`Char.toLower` is exactly the ASCII lowercase mapping the JS source relies
on for these header strings). -/
def cleanHeader (s : String) : String :=
  String.mk (cleanHeaderChars s.data)

/-- A character of the normalized header: not whitespace, not dropped
punctuation, and fixed by the ASCII lowercase map. -/
def goodChar (c : Char) : Prop :=
  isJsWs c = false ∧ isDroppedPunct c = false ∧ Char.toLower c = c

/-! ### The CSV-to-table mapping (src/db/index.ts lines 45-88) -/

/-- The static dictionary from normalized CSV header keys to table column
names, exactly the entries of `csvToTableMapping` in src/db/index.ts. -/
def csvToTableMapping : List (String × String) :=
  [("category", "category"),
   ("name_of_medicine", "nameOfMedicine"),
   ("ema_product_number", "emaProductNumber"),
   ("medicine_status", "medicineStatus"),
   ("opinion_status", "opinionStatus"),
   ("latest_procedure_affecting_product_information", "latestProcedure"),
   ("international_non-proprietary_name_inn__common_name", "inn"),
   ("active_substance", "activeSubstance"),
   ("therapeutic_area_mesh", "therapeuticArea"),
   ("species_veterinary", "speciesVeterinary"),
   ("patient_safety", "patientSafety"),
   ("atc_code_human", "atcCodeHuman"),
   ("atcvet_code_veterinary", "atcVetCode"),
   ("pharmacotherapeutic_group_human", "pharmacotherapeuticGroupHuman"),
   ("pharmacotherapeutic_group_veterinary", "pharmacotherapeuticGroupVet"),
   ("therapeutic_indication", "therapeuticIndication"),
   ("accelerated_assessment", "acceleratedAssessment"),
   ("additional_monitoring", "additionalMonitoring"),
   ("advanced_therapy", "advancedTherapy"),
   ("biosimilar", "biosimilar"),
   ("conditional_approval", "conditionalApproval"),
   ("exceptional_circumstances", "exceptionalCircumstances"),
   ("generic_or_hybrid", "genericOrHybrid"),
   ("orphan_medicine", "orphanMedicine"),
   ("prime:_priority_medicine", "primePriorityMedicine"),
   ("marketing_authorisation_developer__applicant__holder", "marketingAuthorisationDeveloper"),
   ("european_commission_decision_date", "commissionDecisionDate"),
   ("start_of_rolling_review_date", "startRollingReviewDate"),
   ("start_of_evaluation_date", "startEvaluationDate"),
   ("opinion_adopted_date", "opinionAdoptedDate"),
   ("withdrawal_of_application_date", "withdrawalApplicationDate"),
   ("marketing_authorisation_date", "marketingAuthorisationDate"),
   ("refusal_of_marketing_authorisation_date", "refusalMarketingAuthorisationDate"),
   ("withdrawal__expiry__revocation__lapse_of_marketing_authorisation_date", "withdrawalExpiryRevocationDate"),
   ("suspension_of_marketing_authorisation_date", "suspensionMarketingAuthorisationDate"),
   ("revision_number", "revisionNumber"),
   ("first_published_date", "firstPublishedDate"),
   ("last_updated_date", "lastUpdatedDate"),
   ("medicine_url", "medicineUrl")]

/-! ### The medicines table and insert schema (src/db/schema.ts) -/

/-- The 38 text columns of the `medicines` table, in declaration order.
Every one of them is nullable (no `notNull` in the schema); the only other
column is the auto-incremented integer primary key `id`. -/
def medicineTextColumns : List String :=
  ["category", "nameOfMedicine", "emaProductNumber", "medicineStatus",
   "opinionStatus", "latestProcedure", "inn", "activeSubstance",
   "therapeuticArea", "speciesVeterinary", "patientSafety", "atcCodeHuman",
   "atcVetCode", "pharmacotherapeuticGroupHuman", "pharmacotherapeuticGroupVet",
   "therapeuticIndication", "acceleratedAssessment", "additionalMonitoring",
   "advancedTherapy", "biosimilar", "conditionalApproval",
   "exceptionalCircumstances", "genericOrHybrid", "orphanMedicine",
   "primePriorityMedicine", "marketingAuthorisationDeveloper",
   "commissionDecisionDate", "startRollingReviewDate", "startEvaluationDate",
   "opinionAdoptedDate", "withdrawalApplicationDate",
   "marketingAuthorisationDate", "refusalMarketingAuthorisationDate",
   "withdrawalExpiryRevocationDate", "suspensionMarketingAuthorisationDate",
   "revisionNumber", "firstPublishedDate", "lastUpdatedDate", "medicineUrl"]

/-- A JSON-like value as produced by the row pipeline and checked by the
zod insert schema (strings, nulls and numbers are the shapes in play). -/
inductive JValue where
  | jstr (s : String)
  | jnull
  | jnum (n : Int)
deriving DecidableEq

/-- One parsed CSV data row: the ordered raw-header-to-string mapping that
csv-parse produces with the columns option enabled. -/
abbrev RawRow := List (String × String)

/-- One object under construction for insertion: table column to value. -/
abbrev InsertObj := List (String × JValue)

/-- JS object property assignment `obj[k] = v`: overwrite in place when the
key exists, append otherwise. -/
def upsert : InsertObj → String → JValue → InsertObj
  | [], k, v => [(k, v)]
  | (k1, v1) :: rest, k, v =>
    if k1 = k then (k1, v) :: rest else (k1, v1) :: upsert rest k v

/-- The row transformer of src/db/index.ts lines 118-132: for each raw
entry, normalize the header, look it up in the dictionary, and when mapped
store the value on the table column, rewriting empty strings to null.
Unmapped headers are silently dropped.  (A header cleaning to an inherited
Object.prototype name would, in JS, store the value under the stringified
inherited function; that stray key is stripped by the schema parse before
insertion, so dropping it here leaves every observable of the
transform-validate-insert chain unchanged.) -/
def transformRow (row : RawRow) : InsertObj :=
  row.foldl
    (fun obj kv =>
      match csvToTableMapping.lookup (cleanHeader kv.1) with
      | some tableColumn => upsert obj tableColumn (if kv.2 = "" then JValue.jnull else JValue.jstr kv.2)
      | none => obj)
    []

/-- The row-scoped error taxonomy of src/db/index.ts: a validation failure
or a database insert failure, each carrying the original row. -/
inductive RowError where
  | validation (rowData : RawRow)
  | dbInsert (rowData : RawRow)
deriving DecidableEq

/-- What the generated zod insert schema accepts for one column: `id` is an
optional number (never nullable, store-assigned), every text column is an
optional nullable string. -/
def colAccepts (col : String) (v : JValue) : Bool :=
  if col = "id" then
    match v with
    | JValue.jnum _ => true
    | _ => false
  else
    match v with
    | JValue.jstr _ => true
    | JValue.jnull => true
    | JValue.jnum _ => false

/-- The shape check `insertMedicineSchema.parse` performs: every known
column that is present must have an accepted value; absent columns are fine
(none is mandatory); unknown keys are not an error (zod strips them). -/
def checkSchema (obj : InsertObj) : Bool :=
  ("id" :: medicineTextColumns).all fun col =>
    match obj.lookup col with
    | some v => colAccepts col v
    | none => true

/-- The row validator of src/db/index.ts lines 135-139: parse against the
insert schema, failing with a `ValidationError` that carries the original
row; on success zod returns the object with unknown keys stripped. -/
def validateRow (insertObj : InsertObj) (originalRow : RawRow) : Except RowError InsertObj :=
  if checkSchema insertObj then
    Except.ok (insertObj.filter (fun kv => ("id" :: medicineTextColumns).contains kv.1))
  else
    Except.error (RowError.validation originalRow)

/-- The store is external; an import run interacts with it only through
whether each insert succeeds.  A value of this type abstracts the database
handle: it decides, per validated object, whether the insert goes through. -/
abbrev InsertOutcome := InsertObj → Bool

/-- The per-row pipeline of src/db/index.ts lines 152-159: transform, then
validate, then insert; the first failure aborts this row only. -/
def processRow (insertOk : InsertOutcome) (row : RawRow) : Except RowError Unit := do
  let transformed := transformRow row
  let validated ← validateRow transformed row
  if insertOk validated then pure () else throw (RowError.dbInsert row)

/-- The aggregate outcome of src/db/index.ts lines 181-188. -/
structure ImportResult where
  successCount : Nat
  errorCount : Nat
  errors : List RowError
deriving DecidableEq

/-- The per-row outcome record built inside `processAllRows`: the mapped
success flag together with the caught error, mirroring
`Effect.map(() => ...)` / `Effect.catchAll` in src/db/index.ts lines 170-176. -/
def rowOutcome (insertOk : InsertOutcome) (row : RawRow) : Bool × Option RowError :=
  match processRow insertOk row with
  | Except.ok _ => (true, none)
  | Except.error e => (false, some e)

/-- The aggregator of src/db/index.ts lines 162-189: run every row through
the guarded pipeline, then count successes, count failures, and collect the
non-null errors. -/
def processAllRows (insertOk : InsertOutcome) (records : List RawRow) : ImportResult :=
  let results := records.map (rowOutcome insertOk)
  { successCount := (results.filter (fun r => r.1)).length
  , errorCount := (results.filter (fun r => !r.1)).length
  , errors := ((results.filter (fun r => !r.1)).map (fun r => r.2)).filterMap id }

/-- The run-level error taxonomy of src/db/index.ts lines 18-26: a read
failure or a CSV parse failure, each fatal to the whole import. -/
inductive ImportError where
  | readError
  | parseError
deriving DecidableEq

/-- The import coordinator of src/db/index.ts lines 192-224.  Reading the
file and parsing the CSV text are external calls (Bun.file and csv-parse);
they enter the model as the outcome of the read and the parsing function.
A read failure becomes a fatal `readError`, a parse failure a fatal
`parseError`; otherwise the result of `processAllRows` is returned. -/
def importCSV (readResult : Except Unit String)
    (parseResult : String → Except Unit (List RawRow))
    (insertOk : InsertOutcome) : Except ImportError ImportResult :=
  match readResult with
  | Except.error _ => Except.error ImportError.readError
  | Except.ok content =>
    match parseResult content with
    | Except.error _ => Except.error ImportError.parseError
    | Except.ok records => Except.ok (processAllRows insertOk records)

/-- The console preview of failures logged at the end of an import run:
`result.errors.slice(0, 5)` in src/db/index.ts line 212. -/
def loggedErrorPreview (r : ImportResult) : List RowError :=
  r.errors.take 5

/-- The record materialized in the store by inserting a validated object:
each text column takes the string stored for it, and null (absent) columns
stay null. -/
def insertedRecord (obj : InsertObj) (col : String) : Option String :=
  match obj.lookup col with
  | some (JValue.jstr s) => some s
  | _ => none

/-- Whether a row fails the per-row transform/validate/insert pipeline. -/
def rowFails (insertOk : InsertOutcome) (row : RawRow) : Bool :=
  match processRow insertOk row with
  | Except.ok _ => false
  | Except.error _ => true

/-! ### The dynamic query engine (src/server.ts) -/

/-- A stored medicines row as seen by the query path: each canonical column
holds a text value or null. -/
abbrev Rec := String → Option String

/-- The keys of `fieldMapping` in src/server.ts lines 16-58: the camelCase
canonical field names that requests may filter on.  Each key maps to the
drizzle column of the same name, so the mapping is carried here by the key
list alone. -/
def fieldNames : List String := medicineTextColumns

/-- The reserved parameter names of src/server.ts lines 61-69. -/
def reservedParams : List String :=
  ["page", "pageSize", "search",
   "marketingAuthorisationDateFrom", "marketingAuthorisationDateTo",
   "lastUpdatedDateFrom", "lastUpdatedDateTo"]

/-- The fields the global search ORs over (src/server.ts lines 113-123). -/
def searchFields : List String :=
  ["nameOfMedicine", "inn", "activeSubstance", "therapeuticArea",
   "therapeuticIndication", "marketingAuthorisationDeveloper",
   "emaProductNumber"]

/-- The enumerable members every JS object literal inherits from
Object.prototype, plus the `__proto__` accessor: bracket access with one of
these names on `fieldMapping` (an object literal) returns a truthy function
or object even though the name is not an own key.  The source performs no
`hasOwnProperty` check, so these names pass its `if (field)` truthiness
tests. -/
def protoProperties : List String :=
  ["constructor", "hasOwnProperty", "isPrototypeOf", "propertyIsEnumerable",
   "toLocaleString", "toString", "valueOf", "__proto__",
   "__defineGetter__", "__defineSetter__", "__lookupGetter__", "__lookupSetter__"]

/-- One condition of the where clause, as built by `buildWhereClause`:
`like f v` stands for the emitted `f LIKE '%v%'` (v is the raw parameter
value the source wraps in percent signs, unescaped); `ge`/`le` are the
inclusive date-range comparisons; `orLike fields v` is the OR-group of LIKE
conditions the global search emits; `protoField n v` is the malformed
condition pushed when the parameter name n hits an inherited
Object.prototype member of `fieldMapping` instead of a column — executing a
query containing it fails at the store. -/
inductive Cond where
  | like (field : String) (value : String)
  | ge (field : String) (value : String)
  | le (field : String) (value : String)
  | orLike (fields : List String) (value : String)
  | protoField (name : String) (value : String)
deriving DecidableEq

/-- Does `needle` occur as a contiguous subsequence of `hay`? -/
def containsSeq : List Char → List Char → Bool
  | needle, [] => needle.isEmpty
  | needle, c :: rest => needle.isPrefixOf (c :: rest) || containsSeq needle rest

/-- SQLite evaluation of `column LIKE '%kw%'` for a fixed keyword kw that
contains no percent or underscore (the stats endpoint uses the literal
keywords withdrawn and refused): NULL never matches, and ASCII letters
compare case-insensitively, so the test is case-insensitive containment of
the keyword. -/
def sqlLikeContains (v : Option String) (needle : String) : Bool :=
  match v with
  | none => false
  | some s => containsSeq (needle.data.map Char.toLower) (s.data.map Char.toLower)

/-- SQLite LIKE pattern matching (after lowercasing both sides): a percent
sign matches any sequence of characters, an underscore matches any single
character, and every other pattern character matches itself.  Structural on
the pattern; the percent case tries every suffix of the text. -/
def likeMatch : List Char → List Char → Bool
  | [], text => text.isEmpty
  | '%' :: ps, text => text.tails.any fun suffix => likeMatch ps suffix
  | '_' :: _, [] => false
  | '_' :: ps, _ :: ts => likeMatch ps ts
  | _ :: _, [] => false
  | p :: ps, t :: ts => (p == t) && likeMatch ps ts

/-- SQLite evaluation of `column LIKE '%value%'` where value is a raw
request parameter interpolated with no escaping (src/server.ts lines 84 and
112): percent and underscore inside the value act as wildcards, ASCII
letters compare case-insensitively, and NULL never matches. -/
def sqlLikeValue (v : Option String) (value : String) : Bool :=
  match v with
  | none => false
  | some s =>
    likeMatch ((('%' :: value.data) ++ ['%']).map Char.toLower) (s.data.map Char.toLower)

/-- JS truthiness of a query-parameter access: the parameter must be present
and non-empty. -/
def truthyLookup (q : List (String × String)) (k : String) : Option String :=
  match q.lookup k with
  | some v => if v = "" then none else some v
  | none => none

/-- The per-field loop of `buildWhereClause` (src/server.ts lines 77-86):
skip reserved names and falsy values, push a LIKE condition for every
remaining known field name, and — because `fieldMapping[key]` also finds
truthy inherited Object.prototype members — push a malformed condition for
parameter names such as constructor or toString.  Other unknown names are
silently ignored. -/
def fieldConditions (q : List (String × String)) : List Cond :=
  q.filterMap fun kv =>
    if kv.1 ∈ reservedParams ∨ kv.2 = "" then none
    else if kv.1 ∈ fieldNames then some (Cond.like kv.1 kv.2)
    else if kv.1 ∈ protoProperties then some (Cond.protoField kv.1 kv.2)
    else none

/-- The date-range block of `buildWhereClause` (src/server.ts lines 89-108). -/
def dateConditions (q : List (String × String)) : List Cond :=
  (match truthyLookup q "marketingAuthorisationDateFrom" with
   | some v => [Cond.ge "marketingAuthorisationDate" v]
   | none => []) ++
  (match truthyLookup q "marketingAuthorisationDateTo" with
   | some v => [Cond.le "marketingAuthorisationDate" v]
   | none => []) ++
  (match truthyLookup q "lastUpdatedDateFrom" with
   | some v => [Cond.ge "lastUpdatedDate" v]
   | none => []) ++
  (match truthyLookup q "lastUpdatedDateTo" with
   | some v => [Cond.le "lastUpdatedDate" v]
   | none => [])

/-- The global-search block of `buildWhereClause` (src/server.ts lines 111-124). -/
def searchConditions (q : List (String × String)) : List Cond :=
  match truthyLookup q "search" with
  | some v => [Cond.orLike searchFields v]
  | none => []

/-- All conditions collected by `buildWhereClause`, in source order. -/
def conditionsOf (q : List (String × String)) : List Cond :=
  fieldConditions q ++ dateConditions q ++ searchConditions q

/-- The where-clause builder of src/server.ts lines 72-127: the AND of the
collected conditions, or no clause at all (`undefined`) when none were
collected. -/
def buildWhereClause (q : List (String × String)) : Option (List Cond) :=
  let conditions := conditionsOf q
  if conditions.isEmpty then none else some conditions

/-- Does a where clause contain a malformed prototype-member condition?  A
query built from such a clause fails at the store (the drizzle call is
handed a function instead of a column), so the request errors instead of
returning rows. -/
def clauseBroken (w : Option (List Cond)) : Bool :=
  match w with
  | none => false
  | some conds => conds.any fun c =>
    match c with
    | Cond.protoField _ _ => true
    | _ => false

/-- Store evaluation of one well-formed condition against a row.  LIKE is
modelled by `sqlLikeValue` (wildcards in the interpolated value are live);
the date comparisons are SQLite text comparisons, i.e. code-point
lexicographic order on the stored string, and NULL compares to nothing.  A
`protoField` condition is never evaluated — the query containing it fails
first (see `clauseBroken`). -/
def evalCond (r : Rec) : Cond → Bool
  | Cond.like f v => sqlLikeValue (r f) v
  | Cond.ge f v => match r f with
    | some s => decide (v.data ≤ s.data)
    | none => false
  | Cond.le f v => match r f with
    | some s => decide (s.data ≤ v.data)
    | none => false
  | Cond.orLike fields v => fields.any fun f => sqlLikeValue (r f) v
  | Cond.protoField _ _ => false

/-- Store evaluation of the optional where clause: no clause matches every
row; a clause is the AND of its conditions. -/
def evalWhere (w : Option (List Cond)) (r : Rec) : Bool :=
  match w with
  | none => true
  | some conds => conds.all (evalCond r)

/-- The page metadata assembled by the GET /medicines handler
(src/server.ts lines 399-410): `totalPages = total ? Math.ceil(total /
pageSize) : 1`, with the ceiling division written on naturals. -/
structure PaginationMeta where
  page : Nat
  pageSize : Nat
  totalRecords : Nat
  totalPages : Nat
  hasNextPage : Bool
  hasPreviousPage : Bool
deriving DecidableEq

def paginationMeta (page pageSize total : Nat) : PaginationMeta :=
  let totalPages := if total ≠ 0 then (total + pageSize - 1) / pageSize else 1
  { page := page
  , pageSize := pageSize
  , totalRecords := total
  , totalPages := totalPages
  , hasNextPage := decide (page < totalPages)
  , hasPreviousPage := decide (1 < page) }

/-- The paginated select of src/server.ts lines 143-160: skip
`offset = (page - 1) * pageSize` matching rows and return at most
`pageSize` of the rest. -/
def getPaginatedData (rows : List Rec) (page pageSize : Nat) : List Rec :=
  (rows.drop ((page - 1) * pageSize)).take pageSize

/-- The HTTP error value of src/server.ts lines 163-170. -/
structure HTTPError where
  status : Nat
  message : String
deriving DecidableEq

/-- The GET /medicines list operation: build the where clause once, use it
for both the count query and the paginated select, and assemble the page
metadata.  A clause holding a malformed prototype-member condition makes
the store queries fail; the handler's catchAll turns that into the 500
database-error response instead of a result page. -/
def medicinesListEndpoint (db : List Rec) (q : List (String × String))
    (page pageSize : Nat) : Except HTTPError (List Rec × PaginationMeta) :=
  let whereClause := buildWhereClause q
  if clauseBroken whereClause then
    Except.error { status := 500, message := "Database error occurred" }
  else
    let matched := db.filter (evalWhere whereClause)
    let total := matched.length
    Except.ok (getPaginatedData matched page pageSize, paginationMeta page pageSize total)

/-- Sorting of strings as SQLite ORDER BY sorts text: by code points. -/
def sortByData (l : List String) : List String :=
  List.insertionSort (fun s t : String => s.data ≤ t.data) l

instance : IsTotal String (fun s t : String => s.data ≤ t.data) :=
  ⟨fun a b => le_total a.data b.data⟩

instance : IsTrans String (fun s t : String => s.data ≤ t.data) :=
  ⟨fun _ _ _ hab hbc => le_trans hab hbc⟩

/-- The GET /medicines/fields/:fieldName operation (src/server.ts lines
828-869): for a canonical field, the distinct non-null, non-empty values of
the column, ordered by the store.  The invalid-field check is the
truthiness of `fieldMapping[params.fieldName]`, so a name that is an
inherited Object.prototype member (constructor, toString, ...) passes it and
the query then fails at the store: the handler answers with the 500
database-error response, not the 400.  Only names that are neither columns
nor prototype members get the 400. -/
def distinctValues (db : List Rec) (fieldName : String) : Except HTTPError (List String) :=
  if fieldName ∈ fieldNames then
    Except.ok (sortByData ((db.filterMap (fun r => r fieldName)).filter
        (fun v => !(v = ""))).dedup)
  else if fieldName ∈ protoProperties then
    Except.error { status := 500, message := "Database error occurred" }
  else
    Except.error { status := 400, message := "Invalid field name" }

/-- The category breakdown of the stats endpoint. -/
structure CategoryStats where
  human : Nat
  veterinary : Nat
deriving DecidableEq

/-- The status breakdown of the stats endpoint. -/
structure StatusStats where
  authorised : Nat
  withdrawn : Nat
  refused : Nat
deriving DecidableEq

/-- The response of the stats endpoint. -/
structure StatsResult where
  totalMedicines : Nat
  byCategory : CategoryStats
  byStatus : StatusStats
deriving DecidableEq

/-- The GET /medicines/stats operation (src/server.ts lines 737-788): the
total row count; category counts by equality with Human / Veterinary
(`COUNT(CASE WHEN category = ... THEN 1 END)`); the authorised count by
equality with the exact text Authorised, and the withdrawn and refused
counts by `LIKE` containment of the keyword. -/
def stats (db : List Rec) : StatsResult :=
  { totalMedicines := db.length
  , byCategory :=
    { human := (db.filter (fun r => decide (r "category" = some "Human"))).length
    , veterinary := (db.filter (fun r => decide (r "category" = some "Veterinary"))).length }
  , byStatus :=
    { authorised := (db.filter (fun r => decide (r "medicineStatus" = some "Authorised"))).length
    , withdrawn := (db.filter (fun r => sqlLikeContains (r "medicineStatus") "withdrawn")).length
    , refused := (db.filter (fun r => sqlLikeContains (r "medicineStatus") "refused")).length } }

/-- A concrete row for witnesses: the association list gives the non-null
columns. -/
def mkRec (l : List (String × String)) : Rec :=
  fun k => l.lookup k

/-- A row whose status is the lowercase word authorised. -/
def statusOnlyRec : Rec := mkRec [("medicineStatus", "authorised")]

/-! ### Character-level facts about the `cleanHeader` pipeline -/

/-- Distinct code points give distinct characters. -/
theorem char_ne_of_toNat_ne {a b : Char} (h : a.toNat ≠ b.toNat) : a ≠ b :=
  fun e => h (congrArg Char.toNat e)

/-- Turning a valid code point into a character preserves the code point. -/
theorem toNat_ofNat_valid {n : Nat} (h : n.isValidChar) : (Char.ofNat n).toNat = n := by
  simp only [Char.ofNat, h, dite_true, Char.ofNatAux, Char.toNat]
  rfl

/-- Characters that are not ASCII uppercase letters are fixed by `Char.toLower`. -/
theorem toLower_eq_self_of_not_upper {c : Char}
    (h : ¬(65 ≤ c.toNat ∧ c.toNat ≤ 90)) : Char.toLower c = c := by
  show (if c.toNat ≥ 65 ∧ c.toNat ≤ 90 then Char.ofNat (c.toNat + 32) else c) = c
  simp [h]

/-- The core ASCII lowercase map, unfolded to an arithmetic description. -/
theorem toLower_toNat (c : Char) :
    (Char.toLower c).toNat =
      if 65 ≤ c.toNat ∧ c.toNat ≤ 90 then c.toNat + 32 else c.toNat := by
  by_cases h : 65 ≤ c.toNat ∧ c.toNat ≤ 90
  · have hv : (c.toNat + 32).isValidChar := Or.inl (by omega)
    have he : Char.toLower c = Char.ofNat (c.toNat + 32) := by
      show (if c.toNat ≥ 65 ∧ c.toNat ≤ 90 then Char.ofNat (c.toNat + 32) else c) = _
      simp [h]
    rw [he, toNat_ofNat_valid hv, if_pos h]
  · rw [toLower_eq_self_of_not_upper h, if_neg h]

/-- Lowercase ASCII letters are not trim whitespace. -/
theorem isJsWs_eq_false_of_alpha {c : Char}
    (h : 97 ≤ c.toNat ∧ c.toNat ≤ 122) : isJsWs c = false := by
  simp only [isJsWs, decide_eq_false_iff_not]
  omega

theorem isDroppedPunct_eq_false_of_toNat {c : Char}
    (h : c.toNat ≠ 40 ∧ c.toNat ≠ 41 ∧ c.toNat ≠ 47) : isDroppedPunct c = false := by
  have e1 : c ≠ '(' := char_ne_of_toNat_ne (by simpa using h.1)
  have e2 : c ≠ ')' := char_ne_of_toNat_ne (by simpa using h.2.1)
  have e3 : c ≠ '/' := char_ne_of_toNat_ne (by simpa using h.2.2)
  simp [isDroppedPunct, e1, e2, e3]

/-- Lowercasing a clean character yields a `goodChar`: the result is neither
whitespace nor dropped punctuation and is itself lowercase-fixed. -/
theorem goodChar_toLower {c : Char}
    (hw : isJsWs c = false) (hp : isDroppedPunct c = false) :
    goodChar (Char.toLower c) := by
  by_cases hup : 65 ≤ c.toNat ∧ c.toNat ≤ 90
  · have ht : (Char.toLower c).toNat = c.toNat + 32 := by
      rw [toLower_toNat]; simp [hup]
    have hrange : 97 ≤ (Char.toLower c).toNat ∧ (Char.toLower c).toNat ≤ 122 := by omega
    refine ⟨isJsWs_eq_false_of_alpha (by omega), isDroppedPunct_eq_false_of_toNat (by omega), ?_⟩
    exact toLower_eq_self_of_not_upper (by omega)
  · have hfix : Char.toLower c = c := toLower_eq_self_of_not_upper hup
    rw [hfix]
    exact ⟨hw, hp, hfix⟩

/-! ### List-level lemmas about the pipeline stages -/

theorem length_dropWhile_le (p : α → Bool) (l : List α) :
    (l.dropWhile p).length ≤ l.length := by
  induction l with
  | nil => simp
  | cons c rest ih =>
    by_cases h : p c <;> simp [List.dropWhile, h] <;> omega

theorem dropWhile_eq_self_of_none (p : α → Bool) (l : List α)
    (h : ∀ c ∈ l, p c = false) : l.dropWhile p = l := by
  cases l with
  | nil => rfl
  | cons c rest => simp [List.dropWhile, h c (List.mem_cons_self c rest)]

theorem mem_dropWhile (p : α → Bool) (l : List α) {c : α}
    (h : c ∈ l.dropWhile p) : c ∈ l := by
  induction l with
  | nil => simpa using h
  | cons a rest ih =>
    by_cases ha : p a
    · simp only [List.dropWhile, ha] at h
      exact List.mem_cons_of_mem a (ih h)
    · simpa [List.dropWhile, ha] using h

theorem mem_jsTrim (l : List Char) {c : Char} (h : c ∈ jsTrim l) : c ∈ l := by
  unfold jsTrim at h
  rw [List.mem_reverse] at h
  have h2 := mem_dropWhile _ _ h
  rw [List.mem_reverse] at h2
  exact mem_dropWhile _ _ h2

theorem jsTrim_eq_self (l : List Char) (h : ∀ c ∈ l, isJsWs c = false) :
    jsTrim l = l := by
  unfold jsTrim
  rw [dropWhile_eq_self_of_none _ _ h]
  rw [dropWhile_eq_self_of_none _ _ (fun c hc => h c (List.mem_reverse.mp hc))]
  exact List.reverse_reverse l

theorem map_eq_self_of (l : List α) (f : α → α) (h : ∀ c ∈ l, f c = c) :
    l.map f = l := by
  induction l with
  | nil => rfl
  | cons a rest ih =>
    simp only [List.map_cons, h a (List.mem_cons_self a rest)]
    rw [ih (fun c hc => h c (List.mem_cons_of_mem a hc))]

theorem mem_replaceNewlines (l : List Char) {c : Char} (h : c ∈ replaceNewlines l) :
    c ≠ '\n' ∧ (c = ' ' ∨ c ∈ l) := by
  unfold replaceNewlines at h
  rw [List.mem_map] at h
  obtain ⟨d, hd, he⟩ := h
  by_cases hn : d = '\n'
  · subst hn; simp at he; subst he
    exact ⟨by decide, Or.inl rfl⟩
  · simp [hn] at he; subst he
    exact ⟨hn, Or.inr hd⟩

theorem replaceNewlines_eq_self (l : List Char) (h : ∀ c ∈ l, c ≠ '\n') :
    replaceNewlines l = l :=
  map_eq_self_of l _ (fun c hc => by simp [h c hc])

theorem mem_collapseSpacesAux (b : Bool) (l : List Char) {c : Char}
    (h : c ∈ collapseSpacesAux b l) : c = '_' ∨ (c ∈ l ∧ c ≠ ' ') := by
  induction l generalizing b with
  | nil => simpa [collapseSpacesAux] using h
  | cons a rest ih =>
    by_cases ha : a = ' '
    · simp only [collapseSpacesAux, ha, if_pos, reduceIte] at h
      rw [List.mem_append] at h
      rcases h with h | h
      · left
        cases b <;> simpa using h
      · rcases ih true h with h2 | h2
        · exact Or.inl h2
        · exact Or.inr ⟨List.mem_cons_of_mem a h2.1, h2.2⟩
    · simp only [collapseSpacesAux, ha, reduceIte, List.mem_cons] at h
      rcases h with h | h
      · subst h; exact Or.inr ⟨List.mem_cons_self _ _, ha⟩
      · rcases ih false h with h2 | h2
        · exact Or.inl h2
        · exact Or.inr ⟨List.mem_cons_of_mem a h2.1, h2.2⟩

theorem collapseSpacesAux_eq_self (b : Bool) (l : List Char)
    (h : ∀ c ∈ l, c ≠ ' ') : collapseSpacesAux b l = l := by
  induction l generalizing b with
  | nil => rfl
  | cons a rest ih =>
    have ha : a ≠ ' ' := h a (List.mem_cons_self a rest)
    simp only [collapseSpacesAux, ha, reduceIte]
    rw [ih false (fun c hc => h c (List.mem_cons_of_mem a hc))]

/-- Every character of a normalized header is a `goodChar`, provided the raw
header contains no whitespace other than plain spaces and newlines. -/
theorem goodChar_of_mem_cleanHeaderChars (l : List Char)
    (hl : ∀ c ∈ l, isJsWs c = true → c = ' ' ∨ c = '\n')
    {c : Char} (h : c ∈ cleanHeaderChars l) : goodChar c := by
  unfold cleanHeaderChars at h
  rw [List.mem_map] at h
  obtain ⟨d, hd, he⟩ := h
  rw [List.mem_filter] at hd
  obtain ⟨hd1, hd2⟩ := hd
  have hdp : isDroppedPunct d = false := by simpa using hd2
  have hdw : isJsWs d = false := by
    rcases mem_collapseSpacesAux false _ hd1 with h2 | h2
    · subst h2; decide
    · obtain ⟨h3, hne⟩ := h2
      obtain ⟨hnn, h4⟩ := mem_replaceNewlines _ h3
      rcases h4 with h4 | h4
      · exact absurd h4 hne
      · have h5 : d ∈ l := mem_jsTrim l h4
        by_cases hws : isJsWs d = true
        · rcases hl d h5 hws with h6 | h6
          · exact absurd h6 hne
          · exact absurd h6 hnn
        · simpa using hws
  subst he
  exact goodChar_toLower hdw hdp

/-- On a list of `goodChar`s the whole pipeline is the identity. -/
theorem cleanHeaderChars_eq_self (l : List Char) (h : ∀ c ∈ l, goodChar c) :
    cleanHeaderChars l = l := by
  unfold cleanHeaderChars
  have h1 : jsTrim l = l := jsTrim_eq_self l (fun c hc => (h c hc).1)
  rw [h1]
  have h2 : replaceNewlines l = l := by
    refine replaceNewlines_eq_self l (fun c hc hn => ?_)
    have := (h c hc).1
    rw [hn] at this
    simp [isJsWs] at this
  rw [h2]
  have h3 : collapseSpaces l = l := by
    refine collapseSpacesAux_eq_self false l (fun c hc hs => ?_)
    have := (h c hc).1
    rw [hs] at this
    simp [isJsWs] at this
  rw [h3]
  have h4 : l.filter (fun c => !isDroppedPunct c) = l := by
    rw [List.filter_eq_self]
    intro a ha
    simp [(h a ha).2.1]
  rw [h4]
  exact map_eq_self_of l _ (fun c hc => (h c hc).2.2)

/-- C9 (counterexample): header normalization is not idempotent on every raw
header string.  For the header consisting of an opening parenthesis, a tab
and the letter a, the first pass removes the parenthesis and leaves a string
that starts with a tab; the second pass trims that tab away. -/
theorem cleanHeader_not_idempotent_cex :
    cleanHeader (cleanHeader "(\ta") ≠ cleanHeader "(\ta" := by decide

/-- C9 (amended): header normalization is idempotent on every raw header
whose JS-trim whitespace consists only of plain spaces and newlines, i.e.
on every header free of the other trimmed code points (tab, carriage
return, vertical tab, form feed, no-break space, the Unicode space
separators, line separator, paragraph separator and the zero-width
no-break space): normalize (normalize H) = normalize H. -/
theorem cleanHeader_idempotent (s : String)
    (h : ∀ c ∈ s.data, isJsWs c = true → c = ' ' ∨ c = '\n') :
    cleanHeader (cleanHeader s) = cleanHeader s := by
  show String.mk (cleanHeaderChars (cleanHeaderChars s.data)) = String.mk (cleanHeaderChars s.data)
  rw [cleanHeaderChars_eq_self _ (fun c hc => goodChar_of_mem_cleanHeaderChars s.data h hc)]

/-- Witness for the amended C9 at the spec's own example header. -/
theorem cleanHeader_idempotent_witness :
    cleanHeader (cleanHeader "Generic or Hybrid") = cleanHeader "Generic or Hybrid" :=
  cleanHeader_idempotent "Generic or Hybrid" (by decide)

/-! ### Counting lemmas for the import aggregator -/

theorem length_filter_add_length_filter_not (p : α → Bool) (l : List α) :
    (l.filter p).length + (l.filter (fun a => !p a)).length = l.length := by
  induction l with
  | nil => rfl
  | cons a rest ih =>
    by_cases h : p a <;> simp [List.filter, h] <;> omega

theorem filterMap_id_length {l : List (Option α)} (h : ∀ x ∈ l, x.isSome) :
    (l.filterMap id).length = l.length := by
  induction l with
  | nil => rfl
  | cons a rest ih =>
    cases a with
    | none => exact absurd (h none (List.mem_cons_self _ _)) (by simp)
    | some v =>
      simp only [List.filterMap_cons, id, List.length_cons]
      rw [ih (fun x hx => h x (List.mem_cons_of_mem _ hx))]

theorem rowOutcome_fst (insertOk : InsertOutcome) (row : RawRow) :
    (rowOutcome insertOk row).1 = !rowFails insertOk row := by
  unfold rowOutcome rowFails
  cases processRow insertOk row <;> rfl

theorem processAllRows_successCount (insertOk : InsertOutcome) (records : List RawRow) :
    (processAllRows insertOk records).successCount
      = (records.filter (fun r => !rowFails insertOk r)).length := by
  unfold processAllRows
  dsimp only
  rw [List.filter_map, List.length_map]
  congr 1
  apply List.filter_congr
  intro r _
  simp [Function.comp, rowOutcome_fst]

theorem processAllRows_errorCount (insertOk : InsertOutcome) (records : List RawRow) :
    (processAllRows insertOk records).errorCount
      = (records.filter (rowFails insertOk)).length := by
  unfold processAllRows
  dsimp only
  rw [List.filter_map, List.length_map]
  congr 1
  apply List.filter_congr
  intro r _
  simp [Function.comp, rowOutcome_fst]

theorem processAllRows_errors_length (insertOk : InsertOutcome) (records : List RawRow) :
    (processAllRows insertOk records).errors.length
      = (processAllRows insertOk records).errorCount := by
  show (List.filterMap id (((records.map (rowOutcome insertOk)).filter (fun r => !r.1)).map
          (fun r => r.2))).length
      = ((records.map (rowOutcome insertOk)).filter (fun r => !r.1)).length
  have hall : ∀ x ∈ ((records.map (rowOutcome insertOk)).filter (fun r => !r.1)).map
      (fun r => r.2), x.isSome := by
    intro x hx
    rw [List.mem_map] at hx
    obtain ⟨r, hr, he⟩ := hx
    rw [List.mem_filter] at hr
    obtain ⟨hr1, hr2⟩ := hr
    rw [List.mem_map] at hr1
    obtain ⟨row, _, he2⟩ := hr1
    subst he2 he
    unfold rowOutcome at hr2 ⊢
    cases hpr : processRow insertOk row <;> rw [hpr] at hr2 <;> simp_all
  rw [filterMap_id_length hall, List.length_map]

/-- C1: every import run whose CSV parses into N records, of which exactly M
fail the per-row transform/validate/insert pipeline, produces an outcome
with errorCount = M, successCount = N - M, and exactly one outcome per row
(successCount + errorCount = N). -/
theorem importOutcome_counts (insertOk : InsertOutcome) (records : List RawRow) :
    (processAllRows insertOk records).errorCount
        = (records.filter (rowFails insertOk)).length
    ∧ (processAllRows insertOk records).successCount
        = records.length - (records.filter (rowFails insertOk)).length
    ∧ (processAllRows insertOk records).successCount
        + (processAllRows insertOk records).errorCount = records.length := by
  have he := processAllRows_errorCount insertOk records
  have hs := processAllRows_successCount insertOk records
  have hsum := length_filter_add_length_filter_not (rowFails insertOk) records
  refine ⟨he, ?_, ?_⟩ <;> omega

/-- C2: a read failure or a CSV parse failure is fatal to the whole import
run (no partial outcome), while row-scoped failures are caught at the row
boundary: when read and parse succeed the run always returns the aggregate
outcome, every row contributes exactly one outcome, and each failing row is
recorded without affecting its siblings. -/
theorem importCSV_failure_semantics :
    (∀ pf i, importCSV (Except.error ()) pf i = Except.error ImportError.readError)
    ∧ (∀ c pf i, pf c = Except.error () →
        importCSV (Except.ok c) pf i = Except.error ImportError.parseError)
    ∧ (∀ c pf i records, pf c = Except.ok records →
        importCSV (Except.ok c) pf i = Except.ok (processAllRows i records)
        ∧ (processAllRows i records).successCount
            + (processAllRows i records).errorCount = records.length
        ∧ (processAllRows i records).errorCount
            = (records.filter (rowFails i)).length) := by
  refine ⟨fun pf i => rfl, fun c pf i h => ?_, fun c pf i records h => ?_⟩
  · simp [importCSV, h]
  · refine ⟨?_, ?_, processAllRows_errorCount i records⟩
    · simp [importCSV, h]
    · have he := processAllRows_errorCount i records
      have hs := processAllRows_successCount i records
      have hsum := length_filter_add_length_filter_not (rowFails i) records
      omega

/-- Witness for C2: a failing read, a failing parse, and a successful run on
one concrete record. -/
theorem importCSV_failure_semantics_witness :
    importCSV (Except.error ()) (fun _ => Except.ok []) (fun _ => true)
        = Except.error ImportError.readError
    ∧ importCSV (Except.ok "x") (fun _ => Except.error ()) (fun _ => true)
        = Except.error ImportError.parseError
    ∧ importCSV (Except.ok "x") (fun _ => Except.ok [[("Category", "Human")]]) (fun _ => true)
        = Except.ok (processAllRows (fun _ => true) [[("Category", "Human")]]) :=
  ⟨importCSV_failure_semantics.1 _ _,
   importCSV_failure_semantics.2.1 "x" _ _ rfl,
   (importCSV_failure_semantics.2.2 "x" _ _ _ rfl).1⟩

/-- C3 (counterexample): the failure-detail list carried by the returned
outcome is not capped at 5.  A run of six failing rows returns all six
error records, so its length exceeds min(M, 5) = 5; only the console
preview is truncated. -/
theorem importOutcome_sample_cap_cex :
    (processAllRows (fun _ => false) (List.replicate 6 ([] : RawRow))).errorCount = 6
    ∧ (processAllRows (fun _ => false) (List.replicate 6 ([] : RawRow))).errors.length = 6
    ∧ ¬((processAllRows (fun _ => false) (List.replicate 6 ([] : RawRow))).errors.length
          ≤ min 6 5) := by
  decide

/-- C3 (amended): the outcome returned from an import run carries the full
failure-detail list (its length equals the exact errorCount); the preview of
failure details logged to the console is capped at 5 entries, of length
min(errorCount, 5). -/
theorem importOutcome_errors_exact (insertOk : InsertOutcome) (records : List RawRow) :
    (processAllRows insertOk records).errors.length
        = (processAllRows insertOk records).errorCount
    ∧ (loggedErrorPreview (processAllRows insertOk records)).length
        = min (processAllRows insertOk records).errorCount 5 := by
  refine ⟨processAllRows_errors_length insertOk records, ?_⟩
  unfold loggedErrorPreview
  rw [List.length_take, processAllRows_errors_length insertOk records, Nat.min_comm]

/-! ### Facts about `transformRow` and the insert schema (for C10) -/

theorem mem_upsert {obj : InsertObj} {k : String} {v : JValue} {kv : String × JValue}
    (h : kv ∈ upsert obj k v) : kv = (k, v) ∨ kv ∈ obj := by
  induction obj with
  | nil => simpa [upsert] using h
  | cons a rest ih =>
    by_cases ha : a.1 = k
    · rw [show a = (a.1, a.2) from rfl] at h
      simp only [upsert, ha, reduceIte, List.mem_cons] at h
      rcases h with h | h
      · subst ha
        left
        rw [h]
      · exact Or.inr (List.mem_cons_of_mem a h)
    · rw [show a = (a.1, a.2) from rfl] at h
      simp only [upsert, ha, reduceIte, List.mem_cons] at h
      rcases h with h | h
      · right
        rw [h]
        exact List.mem_cons_self _ _
      · rcases ih h with h2 | h2
        · exact Or.inl h2
        · exact Or.inr (List.mem_cons_of_mem a h2)

theorem lookup_mem {l : List (String × α)} {k : String} {v : α}
    (h : l.lookup k = some v) : (k, v) ∈ l := by
  induction l with
  | nil => simp [List.lookup] at h
  | cons a rest ih =>
    by_cases ha : k = a.1
    · rw [show a = (a.1, a.2) from rfl] at h
      rw [List.lookup_cons] at h
      simp only [ha, beq_self_eq_true] at h
      rw [Option.some_inj] at h
      rw [ha, ← h]
      exact List.mem_cons_self _ _
    · rw [show a = (a.1, a.2) from rfl] at h
      rw [List.lookup_cons] at h
      have hb : (k == a.1) = false := beq_eq_false_iff_ne.mpr ha
      simp only [hb] at h
      exact List.mem_cons_of_mem a (ih h)

/-- Generic foldl invariant for `transformRow`: a property of insert objects
that is preserved by each mapped-column update holds of the result. -/
theorem transformRow_foldl_inv (P : InsertObj → Prop)
    (hstep : ∀ (obj : InsertObj) (kv : String × String), P obj →
      P (match csvToTableMapping.lookup (cleanHeader kv.1) with
         | some tableColumn =>
             upsert obj tableColumn (if kv.2 = "" then JValue.jnull else JValue.jstr kv.2)
         | none => obj))
    (row : RawRow) (h0 : P []) : P (transformRow row) := by
  unfold transformRow
  suffices hgen : ∀ obj, P obj → P (row.foldl
      (fun obj kv =>
        match csvToTableMapping.lookup (cleanHeader kv.1) with
        | some tableColumn =>
            upsert obj tableColumn (if kv.2 = "" then JValue.jnull else JValue.jstr kv.2)
        | none => obj) obj) from hgen [] h0
  induction row with
  | nil => exact fun obj h => h
  | cons kv rest ih =>
    intro obj h
    exact ih _ (hstep obj kv h)

/-- Every key placed by `transformRow` is a mapped table column (so never
the id column) and every value placed is a string or a null. -/
theorem transformRow_mem (row : RawRow) :
    ∀ kv ∈ transformRow row,
      kv.1 ∈ csvToTableMapping.map Prod.snd
      ∧ (kv.2 = JValue.jnull ∨ ∃ s, kv.2 = JValue.jstr s) := by
  refine transformRow_foldl_inv
      (fun obj => ∀ kv ∈ obj,
        kv.1 ∈ csvToTableMapping.map Prod.snd
        ∧ (kv.2 = JValue.jnull ∨ ∃ s, kv.2 = JValue.jstr s))
      ?_ row ?_
  swap
  · intro kv hkv
    exact absurd hkv (List.not_mem_nil kv)
  intro obj kv h
  cases hm : csvToTableMapping.lookup (cleanHeader kv.1) with
  | none => exact h
  | some tableColumn =>
    intro kv2 hkv2
    rcases mem_upsert hkv2 with h2 | h2
    · subst h2
      refine ⟨List.mem_map.mpr ⟨_, lookup_mem hm, rfl⟩, ?_⟩
      by_cases he : kv.2 = "" <;> simp [he]
    · exact h kv2 h2

/-- If every raw entry is empty-valued or unmapped, every stored value is null. -/
theorem transformRow_all_null (row : RawRow)
    (h : ∀ kv ∈ row, kv.2 = "" ∨ csvToTableMapping.lookup (cleanHeader kv.1) = none) :
    ∀ kv ∈ transformRow row, kv.2 = JValue.jnull := by
  unfold transformRow
  suffices hgen : ∀ obj, (∀ kv ∈ obj, kv.2 = JValue.jnull) →
      ∀ kv ∈ (row.foldl
        (fun obj kv =>
          match csvToTableMapping.lookup (cleanHeader kv.1) with
          | some tableColumn =>
              upsert obj tableColumn (if kv.2 = "" then JValue.jnull else JValue.jstr kv.2)
          | none => obj) obj), kv.2 = JValue.jnull from hgen [] (by simp)
  induction row with
  | nil => exact fun obj hobj => hobj
  | cons kv rest ih =>
    intro obj hobj
    refine ih (fun kv2 hkv2 => h kv2 (List.mem_cons_of_mem kv hkv2)) _ ?_
    show ∀ kv2 ∈ (match csvToTableMapping.lookup (cleanHeader kv.1) with
        | some tableColumn =>
            upsert obj tableColumn (if kv.2 = "" then JValue.jnull else JValue.jstr kv.2)
        | none => obj), kv2.2 = JValue.jnull
    cases hm : csvToTableMapping.lookup (cleanHeader kv.1) with
    | none => exact hobj
    | some tableColumn =>
      intro kv2 hkv2
      rcases mem_upsert hkv2 with h2 | h2
      · subst h2
        rcases h kv (List.mem_cons_self _ _) with he | he
        · simp [he]
        · rw [hm] at he
          exact absurd he (by simp)
      · exact hobj kv2 h2

/-- The id column is not in the range of the CSV dictionary. -/
theorem id_not_in_mapping_range : ("id" : String) ∉ csvToTableMapping.map Prod.snd := by
  decide

/-- The id column is not a text column. -/
theorem id_not_text_column : ("id" : String) ∉ medicineTextColumns := by
  decide

/-- C10: row validation never fails for missing or empty fields.  For every
parsed CSV row the transformed object passes the insert schema (no column is
mandatory and all are nullable), the full per-row pipeline succeeds whenever
the store accepts the insert, such a row is counted as a success, and a row
with no mapped header or only empty values materializes as an all-null
record. -/
theorem row_validation_never_fails (row : RawRow) :
    (validateRow (transformRow row) row
        = Except.ok ((transformRow row).filter
            (fun kv => ("id" :: medicineTextColumns).contains kv.1)))
    ∧ processRow (fun _ => true) row = Except.ok ()
    ∧ (processAllRows (fun _ => true) [row]).successCount = 1
    ∧ (processAllRows (fun _ => true) [row]).errorCount = 0
    ∧ ((∀ kv ∈ row, kv.2 = "" ∨ csvToTableMapping.lookup (cleanHeader kv.1) = none) →
        ∀ col, insertedRecord (transformRow row) col = none) := by
  have hcheck : checkSchema (transformRow row) = true := by
    unfold checkSchema
    rw [List.all_eq_true]
    intro col hcol
    cases hl : (transformRow row).lookup col with
    | none => simp
    | some v =>
      have hmem := transformRow_mem row (col, v) (lookup_mem hl)
      rcases List.mem_cons.mp hcol with hid | htext
      · exact absurd (hid ▸ hmem.1) id_not_in_mapping_range
      · have hne : col ≠ "id" := fun he => id_not_text_column (he ▸ htext)
        show colAccepts col v = true
        unfold colAccepts
        rw [if_neg hne]
        rcases hmem.2 with hv | ⟨s, hv⟩
        · rw [show v = JValue.jnull from hv]
        · rw [show v = JValue.jstr s from hv]
  have hval : validateRow (transformRow row) row
      = Except.ok ((transformRow row).filter
          (fun kv => ("id" :: medicineTextColumns).contains kv.1)) := by
    unfold validateRow
    rw [hcheck]
    simp
  have hproc : processRow (fun _ => true) row = Except.ok () := by
    unfold processRow
    dsimp only
    rw [hval]
    rfl
  have hout : rowOutcome (fun _ => true) row = (true, none) := by
    unfold rowOutcome
    rw [hproc]
  refine ⟨hval, hproc, ?_, ?_, ?_⟩
  · simp [processAllRows, hout]
  · simp [processAllRows, hout]
  · intro hnull col
    unfold insertedRecord
    cases hl : (transformRow row).lookup col with
    | none => rfl
    | some v =>
      have hv := transformRow_all_null row hnull (col, v) (lookup_mem hl)
      simp only at hv
      rw [hv]

/-- Witness for C10: the single-entry row whose only mapped value is the
empty string validates, succeeds, and materializes with a null category. -/
theorem row_validation_never_fails_witness :
    processRow (fun _ => true) [("Category", "")] = Except.ok ()
    ∧ insertedRecord (transformRow [("Category", "")]) "category" = none :=
  ⟨(row_validation_never_fails [("Category", "")]).2.1,
   (row_validation_never_fails [("Category", "")]).2.2.2.2 (by decide) "category"⟩

/-! ### C4: zero filter conditions mean match-all -/

/-- C4 (counterexample): the claim reads a map with no non-empty known-field
parameter, no date bound and no search term as yielding zero conditions and
hence matching all rows.  The single parameter constructor=x names no
canonical field and is not reserved, yet the source loop finds the
inherited Object.prototype constructor in `fieldMapping`, pushes a
malformed condition, and the request fails with the 500 database error
instead of returning every row. -/
theorem buildWhereClause_matchAll_cex :
    ("constructor" ∉ fieldNames ∧ "constructor" ∉ reservedParams)
    ∧ conditionsOf [("constructor", "x")] = [Cond.protoField "constructor" "x"]
    ∧ buildWhereClause [("constructor", "x")] ≠ none
    ∧ medicinesListEndpoint [mkRec [("category", "Human")]] [("constructor", "x")] 1 50
        = Except.error { status := 500, message := "Database error occurred" } := by
  refine ⟨by decide, by decide, by decide, rfl⟩

/-- C4 (amended): a query-parameter map in which every entry is empty,
reserved, or named neither after a canonical field nor after an inherited
Object.prototype member, and which has no truthy date bound and no truthy
search term, yields zero conditions: no where clause is built, the absent
clause matches every row, and the list operation returns the whole store
subject only to pagination with totalRecords the store size. -/
theorem buildWhereClause_matchAll (q : List (String × String))
    (hfields : ∀ kv ∈ q, kv.2 = "" ∨ kv.1 ∈ reservedParams
      ∨ (kv.1 ∉ fieldNames ∧ kv.1 ∉ protoProperties))
    (hd1 : truthyLookup q "marketingAuthorisationDateFrom" = none)
    (hd2 : truthyLookup q "marketingAuthorisationDateTo" = none)
    (hd3 : truthyLookup q "lastUpdatedDateFrom" = none)
    (hd4 : truthyLookup q "lastUpdatedDateTo" = none)
    (hsrch : truthyLookup q "search" = none) :
    buildWhereClause q = none
    ∧ (∀ r : Rec, evalWhere (buildWhereClause q) r = true)
    ∧ (∀ (db : List Rec) (page pageSize : Nat),
        medicinesListEndpoint db q page pageSize
          = Except.ok (getPaginatedData db page pageSize,
              paginationMeta page pageSize db.length)) := by
  have hfc : fieldConditions q = [] := by
    unfold fieldConditions
    rw [List.filterMap_eq_nil]
    intro kv hkv
    rcases hfields kv hkv with h | h | h
    · rw [if_pos (Or.inr h)]
    · rw [if_pos (Or.inl h)]
    · by_cases h1 : kv.1 ∈ reservedParams ∨ kv.2 = ""
      · rw [if_pos h1]
      · rw [if_neg h1, if_neg h.1, if_neg h.2]
  have hdc : dateConditions q = [] := by
    unfold dateConditions
    rw [hd1, hd2, hd3, hd4]
    rfl
  have hsc : searchConditions q = [] := by
    unfold searchConditions
    rw [hsrch]
  have hco : conditionsOf q = [] := by
    unfold conditionsOf
    rw [hfc, hdc, hsc]
    rfl
  have hb : buildWhereClause q = none := by
    unfold buildWhereClause
    rw [hco]
    rfl
  refine ⟨hb, fun r => by rw [hb]; rfl, fun db page pageSize => ?_⟩
  have hfilter : db.filter (evalWhere (buildWhereClause q)) = db := by
    rw [hb]
    exact List.filter_eq_self.mpr (fun a _ => rfl)
  unfold medicinesListEndpoint
  rw [hb]
  rw [if_neg (by decide : ¬(clauseBroken none = true))]
  rw [hb] at hfilter
  rw [hfilter]

/-- Witness for the amended C4: a map with only a pagination control, an
unknown non-prototype name and an empty-valued known field yields no where
clause and the full one-row store back. -/
theorem buildWhereClause_matchAll_witness :
    buildWhereClause [("page", "2"), ("bogus", "x"), ("category", "")] = none
    ∧ medicinesListEndpoint [mkRec [("category", "Human")]]
        [("page", "2"), ("bogus", "x"), ("category", "")] 1 50
      = Except.ok (getPaginatedData [mkRec [("category", "Human")]] 1 50,
          paginationMeta 1 50 1) := by
  have h := buildWhereClause_matchAll [("page", "2"), ("bogus", "x"), ("category", "")]
    (by decide) (by decide) (by decide) (by decide) (by decide) (by decide)
  exact ⟨h.1, h.2.2 [mkRec [("category", "Human")]] 1 50⟩

/-! ### C5: exactly which parameters become per-field LIKE conditions -/

theorem like_not_mem_dateConditions (q : List (String × String)) (k v : String) :
    Cond.like k v ∉ dateConditions q := by
  unfold dateConditions
  cases truthyLookup q "marketingAuthorisationDateFrom" <;>
    cases truthyLookup q "marketingAuthorisationDateTo" <;>
    cases truthyLookup q "lastUpdatedDateFrom" <;>
    cases truthyLookup q "lastUpdatedDateTo" <;>
    simp

theorem like_not_mem_searchConditions (q : List (String × String)) (k v : String) :
    Cond.like k v ∉ searchConditions q := by
  unfold searchConditions
  cases truthyLookup q "search" <;> simp

theorem protoField_not_mem_dateConditions (q : List (String × String)) (k v : String) :
    Cond.protoField k v ∉ dateConditions q := by
  unfold dateConditions
  cases truthyLookup q "marketingAuthorisationDateFrom" <;>
    cases truthyLookup q "marketingAuthorisationDateTo" <;>
    cases truthyLookup q "lastUpdatedDateFrom" <;>
    cases truthyLookup q "lastUpdatedDateTo" <;>
    simp

theorem protoField_not_mem_searchConditions (q : List (String × String)) (k v : String) :
    Cond.protoField k v ∉ searchConditions q := by
  unfold searchConditions
  cases truthyLookup q "search" <;> simp

/-- C5 (counterexample): three ways the claimed semantics fail.  The
condition is not case-sensitive: category=HUMAN matches a stored lowercase
human.  The value is not a literal substring: percent acts as a wildcard,
so category=a%b matches a stored aXb although a%b occurs in it nowhere,
not even case-insensitively.  And an unrecognized parameter name is not
always ignored: constructor=x reaches the inherited Object.prototype entry
and produces a condition. -/
theorem fieldFilter_case_sensitivity_cex :
    (Cond.like "category" "HUMAN" ∈ conditionsOf [("category", "HUMAN")]
      ∧ evalCond (mkRec [("category", "human")]) (Cond.like "category" "HUMAN") = true
      ∧ containsSeq "HUMAN".data "human".data = false)
    ∧ (evalCond (mkRec [("category", "aXb")]) (Cond.like "category" "a%b") = true
      ∧ containsSeq ("a%b".data.map Char.toLower) ("aXb".data.map Char.toLower) = false)
    ∧ ("constructor" ∉ fieldNames ∧ "constructor" ∉ reservedParams
      ∧ conditionsOf [("constructor", "x")] ≠ []) := by
  decide

/-- C5 (amended): the where clause contains the per-field condition
`field LIKE percent-value-percent` exactly for the supplied parameters
whose name is a known canonical field and whose value is non-empty, and the
malformed prototype condition exactly for non-empty parameters named after
an inherited Object.prototype member of the field dictionary; reserved
names and all other unrecognized names produce nothing (the builder is
total, so they are ignored rather than erroring).  The per-field condition
evaluates as SQLite LIKE on the unescaped interpolated value: NULL never
matches, ASCII letters compare case-insensitively, and percent and
underscore in the value act as wildcards. -/
theorem fieldFilter_condition_iff (q : List (String × String)) (k v : String) :
    (Cond.like k v ∈ conditionsOf q ↔
      ((k, v) ∈ q ∧ k ∉ reservedParams ∧ v ≠ "" ∧ k ∈ fieldNames))
    ∧ (Cond.protoField k v ∈ conditionsOf q ↔
      ((k, v) ∈ q ∧ k ∉ reservedParams ∧ v ≠ "" ∧ k ∉ fieldNames ∧ k ∈ protoProperties))
    ∧ (∀ r : Rec, r k = none → evalCond r (Cond.like k v) = false)
    ∧ (∀ (r : Rec) (s : String), r k = some s →
        evalCond r (Cond.like k v)
          = likeMatch ((('%' :: v.data) ++ ['%']).map Char.toLower)
              (s.data.map Char.toLower)) := by
  refine ⟨?_, ?_, ?_, ?_⟩
  rotate_left 2
  · intro r h
    show sqlLikeValue (r k) v = false
    unfold sqlLikeValue
    rw [h]
  · intro r s h
    show sqlLikeValue (r k) v
        = likeMatch ((('%' :: v.data) ++ ['%']).map Char.toLower) (s.data.map Char.toLower)
    unfold sqlLikeValue
    rw [h]
  · unfold conditionsOf
    rw [List.mem_append, List.mem_append]
    constructor
    · rintro ((h | h) | h)
      · unfold fieldConditions at h
        rw [List.mem_filterMap] at h
        obtain ⟨kv, hkv, he⟩ := h
        by_cases h1 : kv.1 ∈ reservedParams ∨ kv.2 = ""
        · rw [if_pos h1] at he
          exact absurd he (by simp)
        · rw [if_neg h1] at he
          rw [not_or] at h1
          by_cases h2 : kv.1 ∈ fieldNames
          · rw [if_pos h2] at he
            rw [Option.some_inj] at he
            injection he with hk hv
            refine ⟨?_, hk ▸ h1.1, hv ▸ h1.2, hk ▸ h2⟩
            have : kv = (k, v) := Prod.ext hk hv
            exact this ▸ hkv
          · rw [if_neg h2] at he
            by_cases h3 : kv.1 ∈ protoProperties
            · rw [if_pos h3, Option.some_inj] at he
              exact absurd he (by simp)
            · rw [if_neg h3] at he
              exact absurd he (by simp)
      · exact absurd h (like_not_mem_dateConditions q k v)
      · exact absurd h (like_not_mem_searchConditions q k v)
    · rintro ⟨hmem, hres, hne, hfield⟩
      left; left
      unfold fieldConditions
      rw [List.mem_filterMap]
      refine ⟨(k, v), hmem, ?_⟩
      rw [if_neg (not_or.mpr ⟨hres, hne⟩), if_pos hfield]
  · unfold conditionsOf
    rw [List.mem_append, List.mem_append]
    constructor
    · rintro ((h | h) | h)
      · unfold fieldConditions at h
        rw [List.mem_filterMap] at h
        obtain ⟨kv, hkv, he⟩ := h
        by_cases h1 : kv.1 ∈ reservedParams ∨ kv.2 = ""
        · rw [if_pos h1] at he
          exact absurd he (by simp)
        · rw [if_neg h1] at he
          rw [not_or] at h1
          by_cases h2 : kv.1 ∈ fieldNames
          · rw [if_pos h2, Option.some_inj] at he
            exact absurd he (by simp)
          · rw [if_neg h2] at he
            by_cases h3 : kv.1 ∈ protoProperties
            · rw [if_pos h3, Option.some_inj] at he
              injection he with hk hv
              refine ⟨?_, hk ▸ h1.1, hv ▸ h1.2, hk ▸ h2, hk ▸ h3⟩
              have : kv = (k, v) := Prod.ext hk hv
              exact this ▸ hkv
            · rw [if_neg h3] at he
              exact absurd he (by simp)
      · exact absurd h (protoField_not_mem_dateConditions q k v)
      · exact absurd h (protoField_not_mem_searchConditions q k v)
    · rintro ⟨hmem, hres, hne, hfield, hproto⟩
      left; left
      unfold fieldConditions
      rw [List.mem_filterMap]
      refine ⟨(k, v), hmem, ?_⟩
      rw [if_neg (not_or.mpr ⟨hres, hne⟩), if_neg hfield, if_pos hproto]

/-- Witness for the amended C5: the category=Hu parameter produces its
condition, constructor=x produces the malformed condition, the condition
rejects a null category, and on a stored Human it is the LIKE test. -/
theorem fieldFilter_condition_iff_witness :
    Cond.like "category" "Hu" ∈ conditionsOf [("category", "Hu")]
    ∧ Cond.protoField "constructor" "x" ∈ conditionsOf [("constructor", "x")]
    ∧ evalCond (mkRec []) (Cond.like "category" "Hu") = false
    ∧ evalCond (mkRec [("category", "Human")]) (Cond.like "category" "Hu")
        = likeMatch ((('%' :: "Hu".data) ++ ['%']).map Char.toLower)
            ("Human".data.map Char.toLower) :=
  ⟨((fieldFilter_condition_iff [("category", "Hu")] "category" "Hu").1).mpr (by decide),
   ((fieldFilter_condition_iff [("constructor", "x")] "constructor" "x").2.1).mpr (by decide),
   (fieldFilter_condition_iff [("category", "Hu")] "category" "Hu").2.2.1 (mkRec []) rfl,
   (fieldFilter_condition_iff [("category", "Hu")] "category" "Hu").2.2.2
     (mkRec [("category", "Human")]) "Human" rfl⟩

/-! ### C6: the pagination contract -/

/-- C6: for page at least 1 and positive pageSize the handler metadata
satisfies totalPages = max(1, ceil(total / pageSize)) — characterized both
by the closed form and as the least n at least 1 with total <= n * pageSize
(total = 0 gives 1, never 0) — hasNextPage iff page < totalPages,
hasPreviousPage iff page > 1, and the select returns the slice starting at
offset (page - 1) * pageSize of length at most pageSize, element i of the
page being element offset + i of the matched rows; concretely total=25,
pageSize=10 gives totalPages 3, page 2 has both neighbours and page 3 has
no next page. -/
theorem pagination_contract (page pageSize total : Nat)
    (hp : 1 ≤ page) (hs : 1 ≤ pageSize) :
    ((paginationMeta page pageSize total).totalPages
        = max 1 ((total + pageSize - 1) / pageSize)
    ∧ total ≤ (paginationMeta page pageSize total).totalPages * pageSize
    ∧ (∀ n : Nat, 1 ≤ n → total ≤ n * pageSize →
        (paginationMeta page pageSize total).totalPages ≤ n)
    ∧ ((paginationMeta page pageSize total).hasNextPage = true
        ↔ page < (paginationMeta page pageSize total).totalPages)
    ∧ ((paginationMeta page pageSize total).hasPreviousPage = true ↔ 1 < page)
    ∧ (∀ rows : List Rec,
        (getPaginatedData rows page pageSize).length
          = min pageSize (rows.length - (page - 1) * pageSize)
        ∧ ∀ i : Nat, i < pageSize →
            (getPaginatedData rows page pageSize)[i]? = rows[(page - 1) * pageSize + i]?))
    ∧ ((paginationMeta 2 10 25).totalPages = 3
    ∧ (paginationMeta 2 10 25).hasNextPage = true
    ∧ (paginationMeta 2 10 25).hasPreviousPage = true
    ∧ (paginationMeta 3 10 25).hasNextPage = false
    ∧ (paginationMeta 1 10 0).totalPages = 1) := by
  refine ⟨⟨?_, ?_, ?_, ?_, ?_, fun rows => ⟨?_, fun i hi => ?_⟩⟩, by decide⟩
  · show (if total ≠ 0 then (total + pageSize - 1) / pageSize else 1)
        = max 1 ((total + pageSize - 1) / pageSize)
    by_cases h0 : total = 0
    · subst h0
      have hz : (0 + pageSize - 1) / pageSize = 0 := Nat.div_eq_of_lt (by omega)
      rw [if_neg (by simp), hz]
      omega
    · have h1 : 1 ≤ (total + pageSize - 1) / pageSize :=
        (Nat.one_le_div_iff (by omega)).mpr (by omega)
      rw [if_pos h0]
      omega
  · show total ≤ (if total ≠ 0 then (total + pageSize - 1) / pageSize else 1) * pageSize
    by_cases h0 : total = 0
    · subst h0
      exact Nat.zero_le _
    · rw [if_pos h0]
      have hdm := Nat.div_add_mod (total + pageSize - 1) pageSize
      have hml := Nat.mod_lt (total + pageSize - 1) (show 0 < pageSize by omega)
      have hc : (total + pageSize - 1) / pageSize * pageSize
          = pageSize * ((total + pageSize - 1) / pageSize) := Nat.mul_comm _ _
      omega
  · intro n hn hle
    show (if total ≠ 0 then (total + pageSize - 1) / pageSize else 1) ≤ n
    by_cases h0 : total = 0
    · rw [if_neg (by omega)]
      omega
    · rw [if_pos h0]
      refine (Nat.div_le_iff_le_mul_add_pred (by omega)).mpr ?_
      have hc : n * pageSize = pageSize * n := Nat.mul_comm _ _
      omega
  · simp [paginationMeta]
  · simp [paginationMeta]
  · show ((rows.drop ((page - 1) * pageSize)).take pageSize).length = _
    rw [List.length_take, List.length_drop]
  · show ((rows.drop ((page - 1) * pageSize)).take pageSize)[i]? = _
    rw [List.getElem?_take, if_pos hi, List.getElem?_drop]

/-- Witness for C6 at page 2, pageSize 10, total 25. -/
theorem pagination_contract_witness :
    (paginationMeta 2 10 25).totalPages = max 1 ((25 + 10 - 1) / 10)
    ∧ 25 ≤ (paginationMeta 2 10 25).totalPages * 10 :=
  ⟨((pagination_contract 2 10 25 (by decide) (by decide)).1).1,
   ((pagination_contract 2 10 25 (by decide) (by decide)).1).2.1⟩

/-! ### C7: the distinct-values operation -/

/-- C7 (counterexample): the invalid-field error is not raised for every
unrecognized field name.  The name constructor is not a canonical field,
yet the request for its distinct values answers with the 500 database
error, not the 400 invalid-field error: the truthiness check on
`fieldMapping[params.fieldName]` is passed by the inherited
Object.prototype entry. -/
theorem distinctValues_proto_cex :
    ("constructor" ∉ fieldNames)
    ∧ distinctValues ([] : List Rec) "constructor"
        = Except.error { status := 500, message := "Database error occurred" }
    ∧ distinctValues ([] : List Rec) "constructor"
        ≠ Except.error { status := 400, message := "Invalid field name" } := by
  refine ⟨by decide, rfl, fun h => ?_⟩
  rw [show distinctValues ([] : List Rec) "constructor"
      = Except.error { status := 500, message := "Database error occurred" } from rfl,
    Except.error.injEq] at h
  exact absurd h (by decide)

/-- C7 (amended): distinctValues fails with the 400 invalid-field error
exactly when the field name is neither a recognized canonical field nor an
inherited Object.prototype member name (the latter slip past the
invalid-field check and fail with the 500 database error); on a recognized
field it returns the values sorted (store text order), without duplicates,
with the empty string excluded (nulls were never extracted), every returned
value present in some row, and every non-empty stored value returned. -/
theorem distinctValues_contract (db : List Rec) (fieldName : String) :
    (distinctValues db fieldName
        = Except.error { status := 400, message := "Invalid field name" }
      ↔ (fieldName ∉ fieldNames ∧ fieldName ∉ protoProperties))
    ∧ (fieldName ∉ fieldNames → fieldName ∈ protoProperties →
        distinctValues db fieldName
          = Except.error { status := 500, message := "Database error occurred" })
    ∧ (∀ l, distinctValues db fieldName = Except.ok l →
        fieldName ∈ fieldNames
        ∧ l.Sorted (fun s t : String => s.data ≤ t.data)
        ∧ l.Nodup
        ∧ "" ∉ l
        ∧ (∀ v ∈ l, ∃ r ∈ db, r fieldName = some v)
        ∧ (∀ r ∈ db, ∀ v, r fieldName = some v → v ≠ "" → v ∈ l)) := by
  refine ⟨?_, ?_, ?_⟩
  · unfold distinctValues
    by_cases hf : fieldName ∈ fieldNames
    · rw [if_pos hf]
      constructor
      · intro h
        exact absurd h (by simp)
      · intro h
        exact absurd hf h.1
    · rw [if_neg hf]
      by_cases hp : fieldName ∈ protoProperties
      · rw [if_pos hp]
        constructor
        · intro h
          rw [Except.error.injEq] at h
          exact absurd h (by decide)
        · intro h
          exact absurd hp h.2
      · rw [if_neg hp]
        exact ⟨fun _ => ⟨hf, hp⟩, fun _ => rfl⟩
  · intro hf hp
    unfold distinctValues
    rw [if_neg hf, if_pos hp]
  · intro l hl
    unfold distinctValues at hl
    by_cases hf : fieldName ∈ fieldNames
    · rw [if_pos hf, Except.ok.injEq] at hl
      subst hl
      have hperm : List.Perm
          (sortByData ((db.filterMap (fun r => r fieldName)).filter
            (fun v => !(v = ""))).dedup)
          (((db.filterMap (fun r => r fieldName)).filter (fun v => !(v = ""))).dedup) :=
        List.perm_insertionSort _ _
      have hmem : ∀ v : String,
          v ∈ sortByData ((db.filterMap (fun r => r fieldName)).filter
              (fun v => !(v = ""))).dedup
          ↔ (v ∈ db.filterMap (fun r => r fieldName) ∧ v ≠ "") := by
        intro v
        rw [hperm.mem_iff, List.mem_dedup, List.mem_filter]
        simp
      refine ⟨hf, List.sorted_insertionSort _ _,
        hperm.symm.nodup (List.nodup_dedup _), ?_, ?_, ?_⟩
      · intro hemp
        exact ((hmem "").mp hemp).2 rfl
      · intro v hv
        have h2 := ((hmem v).mp hv).1
        rw [List.mem_filterMap] at h2
        exact h2
      · intro r hr v hv hne
        refine (hmem v).mpr ⟨List.mem_filterMap.mpr ⟨r, hr, hv⟩, hne⟩
    · rw [if_neg hf] at hl
      by_cases hp : fieldName ∈ protoProperties
      · rw [if_pos hp] at hl
        exact absurd hl (by simp)
      · rw [if_neg hp] at hl
        exact absurd hl (by simp)

/-- Witness for the amended C7: four rows with duplicate, blank and
out-of-order category values yield the sorted duplicate-free blank-free
list, and the request for the distinct values of constructor answers 500. -/
theorem distinctValues_contract_witness :
    (["a", "b"] : List String).Sorted (fun s t : String => s.data ≤ t.data)
    ∧ (["a", "b"] : List String).Nodup
    ∧ "" ∉ (["a", "b"] : List String)
    ∧ distinctValues ([] : List Rec) "toString"
        = Except.error { status := 500, message := "Database error occurred" } := by
  have h := (distinctValues_contract
      [mkRec [("category", "b")], mkRec [("category", "a")],
       mkRec [("category", "a")], mkRec [("category", "")]] "category").2.2
      ["a", "b"] (by rfl)
  exact ⟨h.2.1, h.2.2.1, h.2.2.2.1,
    (distinctValues_contract ([] : List Rec) "toString").2.1 (by decide) (by decide)⟩

/-! ### C8: the stats endpoint -/

/-- C8 (counterexample): the authorised count is not substring-matched.  A
row whose status contains (indeed equals, up to case) the keyword authorised
is counted 0 by the endpoint, while the substring matching the claim
describes would count it 1. -/
theorem stats_authorised_not_substring_cex :
    (stats [statusOnlyRec]).byStatus.authorised = 0
    ∧ sqlLikeContains (statusOnlyRec "medicineStatus") "authorised" = true
    ∧ (List.filter (fun r => sqlLikeContains (r "medicineStatus") "authorised")
        [statusOnlyRec]).length = 1 := by
  decide

/-- C8 (amended): stats returns the total record count, category counts by
equality with Human and Veterinary, the authorised count by exact equality
with the text Authorised, and the withdrawn and refused counts by LIKE
containment (case-insensitive substring) of the keyword. -/
theorem stats_contract (db : List Rec) :
    (stats db).totalMedicines = db.length
    ∧ (stats db).byCategory.human
        = db.countP (fun r => decide (r "category" = some "Human"))
    ∧ (stats db).byCategory.veterinary
        = db.countP (fun r => decide (r "category" = some "Veterinary"))
    ∧ (stats db).byStatus.authorised
        = db.countP (fun r => decide (r "medicineStatus" = some "Authorised"))
    ∧ (stats db).byStatus.withdrawn
        = db.countP (fun r => sqlLikeContains (r "medicineStatus") "withdrawn")
    ∧ (stats db).byStatus.refused
        = db.countP (fun r => sqlLikeContains (r "medicineStatus") "refused") := by
  refine ⟨rfl, ?_, ?_, ?_, ?_, ?_⟩ <;> rw [List.countP_eq_length_filter] <;> rfl

end MedicinesApi
